import Mathlib

/-!
Verification of the ITAD→Steam 24h-deals pipeline (`itad_steam_24h_deals.py`)
against its natural-language specification.

The pure core of each pipeline stage is embedded as executable Lean
definitions; remote I/O (HTTP responses, page fetches, review outcomes) is
abstracted as explicit input data to those definitions.
-/

namespace SnsBatch

/-- A row of the pipeline as built in `main` step 4 (`prelim` entries):
appid, name, initial/final prices in yen (minor units already divided by 100
in the source), discount percent `off`, an optional deal-expiry timestamp
(`expiry_jst`, modelled as an integer timestamp), and the localized
Japanese review count `reviews_jp` (0 until attached in step 5). -/
structure Row where
  appid : Nat
  name : String
  initial : Nat
  final : Nat
  off : Nat
  expiry : Option Int
  reviews : Nat
deriving DecidableEq, Repr

/-- `expiry_key` from the source: a known expiry maps to `(0, timestamp)`,
an absent one to `(1, +inf)`; since all absent expiries share the same key,
`(1, 0)` faithfully represents `(1, float("inf"))` under the lexicographic
order (known < unknown, knowns ordered by timestamp). -/
def expiry_key (e : Option Int) : Lex (Nat × Int) :=
  match e with
  | some t => toLex (0, t)
  | none => toLex (1, 0)

/-- The composite sort key of `rows.sort` in `main`:
`(-reviews_jp, -off, expiry_key(expiry_jst), final, name)`, compared
lexicographically left to right. -/
def row_key (x : Row) :
    Lex (Int × Lex (Int × Lex (Lex (Nat × Int) × Lex (Nat × String)))) :=
  toLex (-(x.reviews : Int),
    toLex (-(x.off : Int), toLex (expiry_key x.expiry, toLex (x.final, x.name))))

/-- Boolean "less or equal" on rows induced by the composite sort key. -/
def keyLe (x y : Row) : Bool := decide (row_key x ≤ row_key y)

/-- The rank operation: `rows.sort(key=...)` — Python's stable sort by the
composite key, embedded as a stable merge sort under `keyLe`. -/
def rank (l : List Row) : List Row := l.mergeSort keyLe

theorem keyLe_total (x y : Row) : keyLe x y || keyLe y x := by
  simp only [keyLe, Bool.or_eq_true, decide_eq_true_eq]
  exact le_total _ _

theorem keyLe_trans (x y z : Row) : keyLe x y → keyLe y z → keyLe x z := by
  simp only [keyLe, decide_eq_true_eq]
  exact le_trans

/-- `MIN_JP_REVIEWS` from the source: the eligibility threshold on the
localized (Japanese) review count. -/
def MIN_JP_REVIEWS : Nat := 10

/-- Step 5 of `main`: for each prelim item, look its appid up in the review
map (missing keys default to 0), keep it only when the count reaches
`MIN_JP_REVIEWS`, and record the count on the kept row (`reviews_jp`). -/
def eligible_rows (prelim : List Row) (jpMap : List (Nat × Nat)) : List Row :=
  (prelim.map (fun r => { r with reviews := (jpMap.lookup r.appid).getD 0 })).filter
    (fun r => decide (MIN_JP_REVIEWS ≤ r.reviews))

/-- C1: the rank operation sorts by the composite key
`(-reviewCount, -discountPercent, expirySortKey, priceFinalMinor, name)`,
ties broken left to right, `expirySortKey` placing known expiries (ascending
by timestamp) before unknown ones: for every input list the output is a
permutation of the input that is sorted (pairwise nondecreasing) under the
key order. -/
theorem rank_sorts_by_composite_key (l : List Row) :
    (rank l).Perm l ∧ (rank l).Pairwise (fun a b => keyLe a b = true) := by
  constructor
  · exact List.mergeSort_perm l keyLe
  · have h := List.sorted_mergeSort keyLe_trans keyLe_total l
    simpa using h

/-- C9: ranking is induced by a total order on keys (the key comparison is
total and transitive) and is idempotent: re-ranking an already-ranked list
yields the same list. -/
theorem rank_idempotent_total_order (l : List Row) (x y z : Row) :
    rank (rank l) = rank l
      ∧ (keyLe x y || keyLe y x) = true
      ∧ (keyLe x y = true → keyLe y z = true → keyLe x z = true) := by
  refine ⟨?_, keyLe_total x y, keyLe_trans x y z⟩
  exact List.mergeSort_of_sorted (List.sorted_mergeSort keyLe_trans keyLe_total l)

/-- C2: every item that reaches the ranked output carries a localized review
count that is exactly the fetched count (missing fetches defaulting to 0) and
is at least `MIN_JP_REVIEWS`; hence an item whose fetched count is below the
threshold (including one degraded to zero) is never emitted. -/
theorem emitted_reviews_at_least_threshold
    (prelim : List Row) (jpMap : List (Nat × Nat)) (r : Row)
    (hr : r ∈ rank (eligible_rows prelim jpMap)) :
    MIN_JP_REVIEWS ≤ r.reviews ∧ r.reviews = (jpMap.lookup r.appid).getD 0 := by
  rw [rank, List.mem_mergeSort] at hr
  rw [eligible_rows, List.mem_filter] at hr
  obtain ⟨hmem, hthr⟩ := hr
  rw [List.mem_map] at hmem
  obtain ⟨r0, _, hr0⟩ := hmem
  refine ⟨by simpa using hthr, ?_⟩
  subst hr0
  rfl

/-- Witness for C2 at a concrete input: one prelim row with appid 1 and a
review map sending 1 to 25. -/
theorem emitted_reviews_at_least_threshold_witness :
    (⟨1, "A", 100, 50, 50, none, 25⟩ : Row) ∈
        rank (eligible_rows [⟨1, "A", 100, 50, 50, none, 0⟩] [(1, 25)])
      ∧ (MIN_JP_REVIEWS ≤ (⟨1, "A", 100, 50, 50, none, 25⟩ : Row).reviews
          ∧ (⟨1, "A", 100, 50, 50, none, 25⟩ : Row).reviews
              = (([(1, 25)] : List (Nat × Nat)).lookup
                  (⟨1, "A", 100, 50, 50, none, 25⟩ : Row).appid).getD 0) :=
  have h : (⟨1, "A", 100, 50, 50, none, 25⟩ : Row) ∈
      rank (eligible_rows [⟨1, "A", 100, 50, 50, none, 0⟩] [(1, 25)]) := by
    rw [rank, show eligible_rows [⟨1, "A", 100, 50, 50, none, 0⟩] [(1, 25)]
        = [⟨1, "A", 100, 50, 50, none, 25⟩] from by decide]
    simp
  ⟨h, emitted_reviews_at_least_threshold
    [⟨1, "A", 100, 50, 50, none, 0⟩] [(1, 25)] ⟨1, "A", 100, 50, 50, none, 25⟩ h⟩

/-- The trailing hashtag appended to every tweet. -/
def HASHTAG : String := "#Steamセール"

/-- The continuation marker appended to every non-final tweet of a thread. -/
def CONTINUATION : String := "続きます↓"

/-- `fmt_yen` from the source (`f"{int(y):,}"` on a nonnegative price):
decimal digits grouped in threes by commas from the right. -/
def fmt_yen (y : Nat) : String :=
  String.mk ((List.intercalate [','] ((toString y).data.reverse.toChunks 3)).reverse)

/-- `compose_item_lines` from the source: the four rendered lines of one
item block. Timezone-aware expiry formatting (`%m/%d %H:%M` in JST) is
abstracted as the strictly external function `fmtE`; an absent expiry
renders as `不明`. -/
def compose_item_lines (fmtE : Int → String) (r : Row) : List String :=
  ["🎮 " ++ r.name,
   "🛒 ¥" ++ fmt_yen r.initial ++ " ➡️ ¥" ++ fmt_yen r.final
     ++ " （-" ++ toString r.off ++ "%）",
   "⏳ 終了予定(JST): " ++ (match r.expiry with | some t => fmtE t | none => "不明"),
   "🔗 https://store.steampowered.com/app/" ++ toString r.appid ++ "/"]

/-- The chunking of `main` step 6: `[rows[i:i+100] for i in range(0, len(rows), 100)]`,
contiguous slices of at most 100 rows. -/
def chunksOf : List Row → List (List Row)
  | [] => []
  | x :: xs => ((x :: xs).take 100) :: chunksOf ((x :: xs).drop 100)
termination_by l => l.length
decreasing_by simp; omega

/-- The output units of a non-empty ranked list: each chunk paired with its
`is_last` flag (`idx == len(chunks) - 1`). -/
def output_units (rows : List Row) : List (List Row × Bool) :=
  let cs := chunksOf rows
  cs.enum.map (fun p => (p.2, p.1 == cs.length - 1))

/-- `build_tweet_text` from the source, at the granularity of its `lines`
list: header, one block (plus blank line) per item, the hashtag, and — on
non-final tweets only — the continuation marker. The rendered text is
`"\n".join(lines)`. -/
def build_tweet_lines (head2 : String) (fmtE : Int → String)
    (chunk_rows : List Row) (is_last : Bool) : List String :=
  (["⏰ 本日終了のSteamセールまとめ", head2, ""]
      ++ (chunk_rows.map (fun r => compose_item_lines fmtE r ++ [""])).flatten
      ++ [HASHTAG])
    ++ (if is_last then [] else [CONTINUATION])

theorem chunksOf_flatten (l : List Row) : (chunksOf l).flatten = l := by
  induction l using chunksOf.induct with
  | case1 => simp [chunksOf]
  | case2 x xs ih =>
      rw [chunksOf, List.flatten_cons, ih]
      exact List.take_append_drop 100 (x :: xs)

theorem chunksOf_le_capacity (l : List Row) (c : List Row) (hc : c ∈ chunksOf l) :
    c.length ≤ 100 := by
  induction l using chunksOf.induct with
  | case1 => simp [chunksOf] at hc
  | case2 x xs ih =>
      rw [chunksOf] at hc
      rcases List.mem_cons.mp hc with h | h
      · subst h; simp
      · exact ih h

theorem chunksOf_ne_nil (l : List Row) (h : l ≠ []) : chunksOf l ≠ [] := by
  cases l with
  | nil => exact absurd rfl h
  | cons x xs => rw [chunksOf]; simp

theorem getLast?_cons_append_one (a b : String) (l : List String) :
    (a :: (l ++ [b])).getLast? = some b := by
  rw [show a :: (l ++ [b]) = (a :: l) ++ [b] from rfl]
  exact List.getLast?_concat _

theorem getLast?_cons_append_two (a b c : String) (l : List String) :
    (a :: (l ++ [b, c])).getLast? = some c := by
  rw [show a :: (l ++ [b, c]) = (a :: (l ++ [b])) ++ [c] from by simp]
  exact List.getLast?_concat _

/-- C3: for a non-empty ranked list, the partition is capacity-respecting
(≤ 100 items per unit) and order-preserving (concatenating the units' item
blocks reproduces the ranked list); a unit is final exactly when it is the
last one (so exactly one unit is final); and each unit's rendered lines end
with the continuation marker when non-final and with the (distinct) hashtag
when final. -/
theorem partition_reproduces_ranked_list (head2 : String) (fmtE : Int → String)
    (rows : List Row) (h : rows ≠ []) :
    ((output_units rows).map Prod.fst).flatten = rows
      ∧ (∀ u ∈ output_units rows, u.1.length ≤ 100)
      ∧ output_units rows ≠ []
      ∧ (∀ i, (hi : i < (output_units rows).length) →
          (((output_units rows)[i]).2 = true ↔ i = (output_units rows).length - 1))
      ∧ (∀ u ∈ output_units rows,
          (build_tweet_lines head2 fmtE u.1 u.2).getLast? =
            some (if u.2 then HASHTAG else CONTINUATION))
      ∧ HASHTAG ≠ CONTINUATION := by
  have hfst : (output_units rows).map Prod.fst = chunksOf rows := by
    simp only [output_units, List.map_map]
    have : (Prod.fst ∘ fun p : Nat × List Row =>
        (p.2, p.1 == (chunksOf rows).length - 1)) = Prod.snd := rfl
    rw [this, List.enum_map_snd]
  refine ⟨?_, ?_, ?_, ?_, ?_, by decide⟩
  · rw [hfst]; exact chunksOf_flatten rows
  · intro u hu
    apply chunksOf_le_capacity rows
    rw [← hfst]
    exact List.mem_map_of_mem Prod.fst hu
  · have hne := chunksOf_ne_nil rows h
    simp only [output_units, ne_eq, List.map_eq_nil_iff, List.enum_eq_nil]
    exact hne
  · intro i hi
    simp only [output_units, List.getElem_map, List.getElem_enum, beq_iff_eq,
      List.length_map, List.enum_length]
  · intro u hu
    rcases u with ⟨c, b⟩
    cases b with
    | true => simp [build_tweet_lines, getLast?_cons_append_one]
    | false => simp [build_tweet_lines, getLast?_cons_append_two]

/-- Witness for C3 at a concrete input: a single ranked row yields one unit
holding that row, marked final, whose lines end with the hashtag. -/
theorem partition_reproduces_ranked_list_witness :
    ([⟨1, "A", 100, 50, 50, none, 25⟩] : List Row) ≠ []
      ∧ (((output_units [⟨1, "A", 100, 50, 50, none, 25⟩]).map Prod.fst).flatten
            = [⟨1, "A", 100, 50, 50, none, 25⟩]
          ∧ (∀ u ∈ output_units [⟨1, "A", 100, 50, 50, none, 25⟩], u.1.length ≤ 100)
          ∧ output_units [⟨1, "A", 100, 50, 50, none, 25⟩] ≠ []
          ∧ (∀ i, (hi : i < (output_units [⟨1, "A", 100, 50, 50, none, 25⟩]).length) →
              (((output_units [⟨1, "A", 100, 50, 50, none, 25⟩])[i]).2 = true
                ↔ i = (output_units [⟨1, "A", 100, 50, 50, none, 25⟩]).length - 1))
          ∧ (∀ u ∈ output_units [⟨1, "A", 100, 50, 50, none, 25⟩],
              (build_tweet_lines "" (fun _ => "") u.1 u.2).getLast? =
                some (if u.2 then HASHTAG else CONTINUATION))
          ∧ HASHTAG ≠ CONTINUATION) :=
  ⟨by decide, partition_reproduces_ranked_list "" (fun _ => "")
    [⟨1, "A", 100, 50, 50, none, 25⟩] (by decide)⟩

/-- A catalog deal entry as consumed by `list_steam_deals_expiring_window`:
its ITAD id (absent keys are dropped downstream), its `type` string, and its
deal expiry as an already-parsed JST timestamp (`none` covers an absent,
empty or unparseable `deal.expiry`, all of which the source skips). -/
structure DealEntry where
  id : Option String
  typ : String
  expiry : Option Int
deriving DecidableEq, Repr

/-- One page of the `deals/v2` response: the entry list and the `hasMore`
flag (paging offsets are abstracted by consuming pages in sequence). -/
structure Page where
  list : List DealEntry
  hasMore : Bool
deriving DecidableEq, Repr

/-- One upstream page fetch: either a page, or an HTTP error raised by
`get_with_key` (`raise_for_status`). -/
inductive Fetch where
  | ok (p : Page)
  | err
deriving DecidableEq, Repr

/-- Result of scanning one sort candidate: the while-loop either breaks
(early-stop or `hasMore` false) with its accumulated deals, or an
`HTTPError` interrupts it, leaving the accumulated deals behind. -/
inductive AttemptRes where
  | completed (ds : List DealEntry)
  | errored (sofar : List DealEntry)
deriving DecidableEq, Repr

def AttemptRes.deals : AttemptRes → List DealEntry
  | .completed ds => ds
  | .errored ds => ds

def AttemptRes.isCompleted : AttemptRes → Bool
  | .completed _ => true
  | .errored _ => false

/-- Python's `str.lower()` on the ASCII range, applied per character. -/
def lower (s : String) : String := String.mk (s.data.map Char.toLower)

/-- The page entry filter `(d.get("type") or "").lower() == "game"`. -/
def is_game (d : DealEntry) : Bool := lower d.typ == "game"

/-- The window test `start <= exp_dt <= end` on an entry with a parsed
expiry; entries with no parsed expiry are skipped (`continue`). -/
def within_window (s e : Int) (d : DealEntry) : Bool :=
  match d.expiry with
  | some t => decide (s ≤ t) && decide (t ≤ e)
  | none => false

/-- The `elif exp_dt > end` counter test for the early-stop heuristic. -/
def past_window (e : Int) (d : DealEntry) : Bool :=
  match d.expiry with
  | some t => decide (e < t)
  | none => false

/-- The while-loop of `list_steam_deals_expiring_window` for one sort
candidate: per page, keep `kind == game` in-window entries, count in-window
and past-window entries, stop after 3 consecutive pages with zero in-window
and ≥ 1 past-window entries, or when `hasMore` is false; an HTTP error
aborts the candidate with whatever was accumulated. -/
def scanAttempt (s e : Int) (tooFar : Nat) (acc : List DealEntry) :
    List Fetch → AttemptRes
  | [] => .completed acc
  | .err :: _ => .errored acc
  | .ok p :: rest =>
      let lst := p.list.filter is_game
      let acc2 := acc ++ lst.filter (within_window s e)
      let pageIn := (lst.filter (within_window s e)).length
      let pageOut := (lst.filter (past_window e)).length
      let tooFar2 := if pageIn == 0 && pageOut > 0 then tooFar + 1 else 0
      if 3 ≤ tooFar2 then .completed acc2
      else if !p.hasMore then .completed acc2
      else scanAttempt s e tooFar2 acc2 rest

/-- The sort-candidate loop: the first candidate whose attempt completes
wins (`used_sort` is set and the loop breaks); an `HTTPError` falls through
to the next candidate (which clears the accumulator); if every candidate
errors, the last candidate's partial accumulation is returned. -/
def scanFallback (s e : Int) : List (List Fetch) → List DealEntry → List DealEntry
  | [], acc => acc
  | c :: rest, _ =>
      match scanAttempt s e 0 [] c with
      | .completed ds => ds
      | .errored sofar => scanFallback s e rest sofar

/-- `list_steam_deals_expiring_window`, over the abstract page-fetch traces
of the three sort candidates `["expiry", "-expiry", "-cut"]`. -/
def list_steam_deals_expiring_window (s e : Int) (cands : List (List Fetch)) :
    List DealEntry :=
  scanFallback s e cands []

theorem scanAttempt_deals_sound (s e : Int) :
    ∀ (fs : List Fetch) (tf : Nat) (acc : List DealEntry) (d : DealEntry),
      d ∈ (scanAttempt s e tf acc fs).deals →
      d ∈ acc ∨ (is_game d = true ∧ within_window s e d = true) := by
  intro fs
  induction fs with
  | nil =>
      intro tf acc d hd
      exact Or.inl hd
  | cons f rest ih =>
      intro tf acc d hd
      cases f with
      | err => exact Or.inl hd
      | ok p =>
          simp only [scanAttempt] at hd
          have hacc2 : ∀ x : DealEntry,
              x ∈ acc ++ (p.list.filter is_game).filter (within_window s e) →
              x ∈ acc ∨ (is_game x = true ∧ within_window s e x = true) := by
            intro x hx
            rcases List.mem_append.mp hx with h | h
            · exact Or.inl h
            · right
              have h1 := List.mem_filter.mp h
              have h2 := List.mem_filter.mp h1.1
              exact ⟨h2.2, h1.2⟩
          split_ifs at hd <;> simp only [AttemptRes.deals] at hd <;>
            first
            | exact hacc2 d hd
            | exact (ih _ _ d hd).elim (fun h => hacc2 d h) Or.inr

theorem scanFallback_sound (s e : Int) :
    ∀ (cands : List (List Fetch))(acc : List DealEntry) (d : DealEntry),
      (∀ x ∈ acc, is_game x = true ∧ within_window s e x = true) →
      d ∈ scanFallback s e cands acc →
      is_game d = true ∧ within_window s e d = true := by
  intro cands
  induction cands with
  | nil =>
      intro acc d hacc hd
      exact hacc d hd
  | cons c rest ih =>
      intro acc d hacc hd
      rw [scanFallback] at hd
      have hatt : ∀ x ∈ (scanAttempt s e 0 [] c).deals,
          is_game x = true ∧ within_window s e x = true := by
        intro x hx
        rcases scanAttempt_deals_sound s e c 0 [] x hx with h | h
        · simp at h
        · exact h
      rcases hres : scanAttempt s e 0 [] c with ds | sofar
      · rw [hres] at hd
        exact hatt d (by rw [hres]; exact hd)
      · rw [hres] at hd
        exact ih sofar d (by intro x hx; exact hatt x (by rw [hres]; exact hx)) hd

/-- Python-dict assignment `m[k] = v` on an insertion-ordered association
list: overwrite in place if the key exists, else append. -/
def dict_insert {α β : Type} [BEq α] (m : List (α × β)) (k : α) (v : β) :
    List (α × β) :=
  if m.any (fun p => p.1 == k) then
    m.map (fun p => if p.1 == k then (k, v) else p)
  else m ++ [(k, v)]

/-- One iteration of the `itad_expiry_map` loop in `main`: a deal with an
id and a parseable expiry records `id ↦ expiry`; any failure inside the try
block (missing id, unparseable expiry) is ignored. -/
def expiry_step (m : List (String × Int)) (d : DealEntry) : List (String × Int) :=
  match d.id, d.expiry with
  | some i, some t => dict_insert m i t
  | _, _ => m

/-- `itad_expiry_map` of `main`, folded over the scanned deals (re-parsing
in `main` yields the same timestamp as in the scanner, so the parsed
`expiry` field is reused). -/
def build_expiry_map (deals : List DealEntry) : List (String × Int) :=
  deals.foldl expiry_step []

/-- The expiry-attachment loop of `main`: the first `(itad_id, appid)` pair
of `id2appid` (insertion order) whose appid matches the row and whose
itad_id is a key of the expiry map sets the row's `expiry_jst`. -/
def attach_expiry (id2appid : List (String × Nat))
    (expMap : List (String × Int)) (r : Row) : Row :=
  match id2appid.find? (fun p => p.2 == r.appid && (expMap.lookup p.1).isSome) with
  | some p => { r with expiry := expMap.lookup p.1 }
  | none => r

/-- Steps 1, 4.5, 5 and ranking of `main`, composed: scan the window, build
the expiry map, attach expiries to the (expiry-less) prelim rows, filter by
review count, rank. -/
def pipeline_rows (s e : Int) (cands : List (List Fetch))
    (id2appid : List (String × Nat)) (prelim : List Row)
    (jpMap : List (Nat × Nat)) : List Row :=
  let deals := list_steam_deals_expiring_window s e cands
  let expMap := build_expiry_map deals
  rank (eligible_rows (prelim.map (attach_expiry id2appid expMap)) jpMap)

theorem dict_insert_mem {α β : Type} [BEq α] [LawfulBEq α]
    (m : List (α × β)) (k : α) (v : β)
    (p : α × β) (hp : p ∈ dict_insert m k v) : p ∈ m ∨ p = (k, v) := by
  rw [dict_insert] at hp
  split at hp
  · rcases List.mem_map.mp hp with ⟨q, hq, hq2⟩
    by_cases h : q.1 == k
    · right; rw [if_pos h] at hq2; exact hq2.symm
    · left; rw [if_neg h] at hq2; exact hq2 ▸ hq
  · rcases List.mem_append.mp hp with h | h
    · exact Or.inl h
    · right; simpa using h

theorem expiry_fold_sound :
    ∀ (ds : List DealEntry) (m0 : List (String × Int)) (p : String × Int),
      p ∈ ds.foldl expiry_step m0 →
      p ∈ m0 ∨ ∃ d ∈ ds, d.id = some p.1 ∧ d.expiry = some p.2 := by
  intro ds
  induction ds with
  | nil =>
      intro m0 p hp
      exact Or.inl hp
  | cons d ds ih =>
      intro m0 p hp
      rw [List.foldl_cons] at hp
      rcases ih (expiry_step m0 d) p hp with h | h
      · rw [expiry_step] at h
        split at h
        · next i t hi ht =>
            rcases dict_insert_mem _ _ _ _ h with h2 | h2
            · exact Or.inl h2
            · exact Or.inr ⟨d, List.mem_cons_self d ds, by rw [h2, hi], by rw [h2, ht]⟩
        · exact Or.inl h
      · rcases h with ⟨d2, hd2, hp2⟩
        exact Or.inr ⟨d2, List.mem_cons_of_mem d hd2, hp2⟩

theorem build_expiry_map_sound (deals : List DealEntry) (p : String × Int)
    (hp : p ∈ build_expiry_map deals) :
    ∃ d ∈ deals, d.id = some p.1 ∧ d.expiry = some p.2 := by
  rcases expiry_fold_sound deals [] p hp with h | h
  · simp at h
  · exact h

theorem within_window_iff (s e : Int) (d : DealEntry) :
    within_window s e d = true ↔ ∃ t, d.expiry = some t ∧ s ≤ t ∧ t ≤ e := by
  cases h : d.expiry with
  | none => simp [within_window, h]
  | some u => simp [within_window, h, and_assoc]

theorem attach_expiry_in_window (s e : Int) (deals : List DealEntry)
    (id2 : List (String × Nat)) (r0 : Row) (h0 : r0.expiry = none)
    (hdeals : ∀ d ∈ deals, within_window s e d = true) (t : Int)
    (ht : (attach_expiry id2 (build_expiry_map deals) r0).expiry = some t) :
    s ≤ t ∧ t ≤ e := by
  rw [attach_expiry] at ht
  split at ht
  · next p hp =>
      have hmem : (p.1, t) ∈ build_expiry_map deals := by
        rcases List.lookup_eq_some_iff.mp ht with ⟨l1, l2, heq, _⟩
        rw [heq]
        exact List.mem_append_right l1 (List.mem_cons_self _ _)
      rcases build_expiry_map_sound deals (p.1, t) hmem with ⟨d, hd, _, hexp⟩
      rcases (within_window_iff s e d).mp (hdeals d hd) with ⟨u, hu, hw⟩
      rw [hexp] at hu
      cases hu
      exact hw
  · rw [h0] at ht
    cases ht

/-- C4: the scanner admits only `kind == game` entries whose expiry lies
within `[start, end]` (both inclusive); and every pipeline output row whose
expiry is present got it from the expiry map built over those admitted
deals, hence it lies within `[start, end]`. -/
theorem emitted_expiry_within_window (s e : Int) (cands : List (List Fetch))
    (id2appid : List (String × Nat)) (prelim : List Row)
    (jpMap : List (Nat × Nat)) (hprelim : ∀ r ∈ prelim, r.expiry = none) :
    (∀ d ∈ list_steam_deals_expiring_window s e cands,
        is_game d = true ∧ ∃ t, d.expiry = some t ∧ s ≤ t ∧ t ≤ e)
      ∧ (∀ r ∈ pipeline_rows s e cands id2appid prelim jpMap,
          ∀ t, r.expiry = some t → s ≤ t ∧ t ≤ e) := by
  have hscan : ∀ d ∈ list_steam_deals_expiring_window s e cands,
      is_game d = true ∧ within_window s e d = true := by
    intro d hd
    exact scanFallback_sound s e cands [] d (by simp) hd
  constructor
  · intro d hd
    exact ⟨(hscan d hd).1, (within_window_iff s e d).mp (hscan d hd).2⟩
  · intro r hr t ht
    simp only [pipeline_rows] at hr
    rw [rank, List.mem_mergeSort, eligible_rows, List.mem_filter] at hr
    rcases List.mem_map.mp hr.1 with ⟨r1, hr1, hr1eq⟩
    rcases List.mem_map.mp hr1 with ⟨r0, hr0, hr0eq⟩
    have hexp : r1.expiry = some t := by
      have : r.expiry = r1.expiry := by rw [← hr1eq]
      rw [← this]; exact ht
    rw [← hr0eq] at hexp
    exact attach_expiry_in_window s e _ id2appid r0 (hprelim r0 hr0)
      (fun d hd => (hscan d hd).2) t hexp

/-- Witness for C4 at a concrete input: one page with one in-window game
deal, one prelim row (no expiry), eligible reviews. -/
theorem emitted_expiry_within_window_witness :
    (∀ r ∈ ([⟨1, "A", 100, 50, 50, none, 0⟩] : List Row), r.expiry = none)
      ∧ ((∀ d ∈ list_steam_deals_expiring_window 0 100
            [[Fetch.ok ⟨[⟨some "g", "game", some 50⟩], false⟩]],
            is_game d = true ∧ ∃ t, d.expiry = some t ∧ 0 ≤ t ∧ t ≤ 100)
        ∧ (∀ r ∈ pipeline_rows 0 100
              [[Fetch.ok ⟨[⟨some "g", "game", some 50⟩], false⟩]]
              [("g", 1)] [⟨1, "A", 100, 50, 50, none, 0⟩] [(1, 25)],
            ∀ t, r.expiry = some t → 0 ≤ t ∧ t ≤ 100)) :=
  ⟨by decide, emitted_expiry_within_window 0 100
    [[Fetch.ok ⟨[⟨some "g", "game", some 50⟩], false⟩]]
    [("g", 1)] [⟨1, "A", 100, 50, 50, none, 0⟩] [(1, 25)] (by decide)⟩

/-- Counterexample to C5 as stated: under the first sort candidate the scan
completes (single page, `hasMore` false) with zero in-window deals, while
the second candidate would complete with one in-window game deal — yet the
scanner returns the empty result of the first candidate instead of trying
the next sort key. -/
theorem scan_zero_result_wins_counterexample :
    list_steam_deals_expiring_window 0 100
        [[Fetch.ok ⟨[], false⟩],
         [Fetch.ok ⟨[⟨some "g", "game", some 50⟩], false⟩],
         [Fetch.ok ⟨[⟨some "g", "game", some 50⟩], false⟩]] = []
      ∧ scanAttempt 0 100 0 [] [Fetch.ok ⟨[⟨some "g", "game", some 50⟩], false⟩]
          = AttemptRes.completed [⟨some "g", "game", some 50⟩] := by
  decide

/-- C5 amended: the next sort candidate is attempted only when the upstream
call errors; an attempt that completes — even with zero in-window deals —
wins and its accumulated deals are the scan result, while an erroring
attempt falls through to the remaining candidates (carrying its partial
accumulation, which is returned only if no candidate remains). -/
theorem scan_fallback_on_error_only (s e : Int) (c1 c2 : List Fetch)
    (rest1 rest2 : List (List Fetch)) (acc1 acc2 : List DealEntry)
    (h1 : (scanAttempt s e 0 [] c1).isCompleted = true)
    (h2 : (scanAttempt s e 0 [] c2).isCompleted = false) :
    scanFallback s e (c1 :: rest1) acc1 = (scanAttempt s e 0 [] c1).deals
      ∧ scanFallback s e (c2 :: rest2) acc2
          = scanFallback s e rest2 ((scanAttempt s e 0 [] c2).deals) := by
  constructor
  · rw [scanFallback]
    rcases hres : scanAttempt s e 0 [] c1 with ds | sofar
    · rw [AttemptRes.deals]
    · rw [hres, AttemptRes.isCompleted] at h1
      cases h1
  · rw [scanFallback]
    rcases hres : scanAttempt s e 0 [] c2 with ds | sofar
    · rw [hres, AttemptRes.isCompleted] at h2
      cases h2
    · rw [AttemptRes.deals]

/-- Witness for the amended C5: a candidate whose only page is empty with
`hasMore` false completes (and wins with zero deals); a candidate whose
first fetch errors falls through. -/
theorem scan_fallback_on_error_only_witness :
    ((scanAttempt 0 100 0 [] [Fetch.ok ⟨[], false⟩]).isCompleted = true
        ∧ (scanAttempt 0 100 0 [] [Fetch.err]).isCompleted = false)
      ∧ (scanFallback 0 100 ([Fetch.ok ⟨[], false⟩] :: [[Fetch.err]]) []
            = (scanAttempt 0 100 0 [] [Fetch.ok ⟨[], false⟩]).deals
        ∧ scanFallback 0 100 ([Fetch.err] :: [[Fetch.ok ⟨[], false⟩]]) []
            = scanFallback 0 100 [[Fetch.ok ⟨[], false⟩]]
                ((scanAttempt 0 100 0 [] [Fetch.err]).deals)) :=
  ⟨⟨by decide, by decide⟩,
    scan_fallback_on_error_only 0 100 [Fetch.ok ⟨[], false⟩] [Fetch.err]
      [[Fetch.err]] [[Fetch.ok ⟨[], false⟩]] [] [] (by decide) (by decide)⟩

theorem lookup_map_overwrite {α β : Type} [BEq α] [LawfulBEq α]
    (k : α) (v : β) :
    ∀ (m : List (α × β)), m.any (fun p => p.1 == k) = true →
      (m.map (fun p => if p.1 == k then (k, v) else p)).lookup k = some v := by
  intro m
  induction m with
  | nil => intro h; simp at h
  | cons p ps ih =>
      rcases p with ⟨a, b⟩
      intro h
      simp only [List.any_cons, Bool.or_eq_true] at h
      cases hak : (a == k) with
      | true =>
          have hk : a = k := by simpa using hak
          subst hk
          simp
      | false =>
          have h2 : (k == a) = false := by
            simp only [beq_eq_false_iff_ne, ne_eq] at hak ⊢
            exact fun hh => hak hh.symm
          simp only [List.map_cons, hak, Bool.false_eq_true, if_false,
            List.lookup_cons, h2]
          apply ih
          rcases h with h1 | h1
          · simp only [hak] at h1
            cases h1
          · exact h1

theorem lookup_map_preserve {α β : Type} [BEq α] [LawfulBEq α]
    (k k' : α) (v : β) (hne : (k' == k) = false) :
    ∀ (m : List (α × β)),
      (m.map (fun p => if p.1 == k then (k, v) else p)).lookup k' = m.lookup k' := by
  intro m
  induction m with
  | nil => simp
  | cons p ps ih =>
      rcases p with ⟨a, b⟩
      cases hak : (a == k) with
      | true =>
          have hk : a = k := by simpa using hak
          subst hk
          simp only [List.map_cons, beq_self_eq_true, if_true, List.lookup_cons, hne]
          exact ih
      | false =>
          simp only [List.map_cons, hak, Bool.false_eq_true, if_false,
            List.lookup_cons]
          cases hka : (k' == a) with
          | true => rfl
          | false => exact ih

theorem dict_insert_lookup_self {α β : Type} [BEq α] [LawfulBEq α]
    (m : List (α × β)) (k : α) (v : β) :
    (dict_insert m k v).lookup k = some v := by
  rw [dict_insert]
  split
  · next hany => exact lookup_map_overwrite k v m hany
  · next hany =>
      rw [List.lookup_append]
      have hnone : m.lookup k = none := by
        rw [List.lookup_eq_none_iff]
        intro p hp
        simp only [Bool.not_eq_true] at hany
        rw [List.any_eq_false] at hany
        have := hany p hp
        simp only [bne_iff_ne, ne_eq]
        intro hkp
        exact this (by simp [hkp.symm])
      rw [hnone]
      simp [List.lookup]

theorem dict_insert_lookup_ne {α β : Type} [BEq α] [LawfulBEq α]
    (m : List (α × β)) (k k' : α) (v : β) (hne : (k' == k) = false) :
    (dict_insert m k v).lookup k' = m.lookup k' := by
  rw [dict_insert]
  split
  · exact lookup_map_preserve k k' v hne m
  · rw [List.lookup_append]
    have : ([(k, v)] : List (α × β)).lookup k' = none := by
      simp [List.lookup, hne]
    rw [this, Option.or_none]

/-- The outcome of the Steam `appreviews` exchange for one appid, as seen by
`_fetch_jp_reviews`: a JSON payload carrying `query_summary.total_reviews`,
a 200-status non-JSON body (treated as `{}`, so 0 reviews), a network-level
`requests.RequestException`, or any other in-worker exception (which makes
the collector in `fetch_jp_reviews_parallel` skip that future). -/
inductive ReviewOutcome where
  | ok (n : Nat)
  | badJson
  | netErr
  | crash
deriving DecidableEq, Repr

/-- `_fetch_jp_reviews`: the count a worker resolves for one appid —
`total_reviews` on success, 0 on a non-JSON body, 0 on a network-level
failure (the batch must go on), and no entry at all when the worker raises
something else (the `except Exception: continue` in the collector). -/
def fetch_jp_reviews : ReviewOutcome → Option Nat
  | .ok n => some n
  | .badJson => some 0
  | .netErr => some 0
  | .crash => none

/-- One collected future of `fetch_jp_reviews_parallel`: a resolved count
is keyed into the result dict, a raising future is skipped. -/
def review_step (outcome : Nat → ReviewOutcome) (m : List (Nat × Nat))
    (aid : Nat) : List (Nat × Nat) :=
  match fetch_jp_reviews (outcome aid) with
  | some n => dict_insert m aid n
  | none => m

/-- `fetch_jp_reviews_parallel`: results are keyed by appid, so the final
map does not depend on completion order; the fold is taken in submission
order with the per-appid outcome deterministic (the per-appid cache makes
repeated fetches of one appid agree). -/
def fetch_jp_reviews_parallel (appids : List Nat)
    (outcome : Nat → ReviewOutcome) : List (Nat × Nat) :=
  appids.foldl (review_step outcome) []

theorem review_fold_lookup (outcome : Nat → ReviewOutcome) (aid n : Nat)
    (h : fetch_jp_reviews (outcome aid) = some n) :
    ∀ (ids : List Nat) (m0 : List (Nat × Nat)),
      (aid ∈ ids ∨ m0.lookup aid = some n) →
      (ids.foldl (review_step outcome) m0).lookup aid = some n := by
  intro ids
  induction ids with
  | nil =>
      intro m0 hm
      rcases hm with hm | hm
      · simp at hm
      · exact hm
  | cons i ids ih =>
      intro m0 hm
      rw [List.foldl_cons]
      apply ih
      rcases hm with hm | hm
      · rcases List.mem_cons.mp hm with hm | hm
        · right
          subst hm
          rw [review_step, h]
          exact dict_insert_lookup_self m0 aid n
        · exact Or.inl hm
      · right
        by_cases hia : aid = i
        · subst hia
          rw [review_step, h]
          exact dict_insert_lookup_self m0 aid n
        · rw [review_step]
          rcases hfi : fetch_jp_reviews (outcome i) with _ | k

          · exact hm
          · rw [dict_insert_lookup_ne m0 i aid k (by simpa using hia)]
            exact hm

theorem review_fold_keys (outcome : Nat → ReviewOutcome) :
    ∀ (ids : List Nat) (m0 : List (Nat × Nat)) (p : Nat × Nat),
      p ∈ ids.foldl (review_step outcome) m0 → p ∈ m0 ∨ p.1 ∈ ids := by
  intro ids
  induction ids with
  | nil =>
      intro m0 p hp
      exact Or.inl hp
  | cons i ids ih =>
      intro m0 p hp
      rw [List.foldl_cons] at hp
      rcases ih _ p hp with hm | hm
      · rw [review_step] at hm
        split at hm
        · rcases dict_insert_mem _ _ _ _ hm with h2 | h2
          · exact Or.inl h2
          · right
            rw [h2]
            exact List.mem_cons_self _ _
        · exact Or.inl hm
      · exact Or.inr (List.mem_cons_of_mem i hm)

/-- C6: for every batch, an appid whose fetch hits a network-level failure
resolves to count 0 in the returned map (rather than raising), an appid
whose fetch succeeds with `total_reviews = n` resolves to `n`, and the
stage always returns a (possibly partial) map whose keys all come from the
requested batch — no outcome aborts the batch. -/
theorem review_fetch_partial_results (appids : List Nat)
    (outcome : Nat → ReviewOutcome) (aid : Nat) (ha : aid ∈ appids) :
    (outcome aid = ReviewOutcome.netErr →
        (fetch_jp_reviews_parallel appids outcome).lookup aid = some 0)
      ∧ (∀ n, outcome aid = ReviewOutcome.ok n →
          (fetch_jp_reviews_parallel appids outcome).lookup aid = some n)
      ∧ (∀ p ∈ fetch_jp_reviews_parallel appids outcome, p.1 ∈ appids) := by
  refine ⟨?_, ?_, ?_⟩
  · intro hnet
    exact review_fold_lookup outcome aid 0
      (by rw [hnet]; rfl) appids [] (Or.inl ha)
  · intro n hok
    exact review_fold_lookup outcome aid n
      (by rw [hok]; rfl) appids [] (Or.inl ha)
  · intro p hp
    rcases review_fold_keys outcome appids [] p hp with h | h
    · simp at h
    · exact h

/-- Witness for C6 at a concrete input: five appids, appid 3 hits a network
error, the rest succeed with 42 reviews. -/
theorem review_fetch_partial_results_witness :
    (3 ∈ [1, 2, 3, 4, 5])
      ∧ (((fun aid => if aid = 3 then ReviewOutcome.netErr
              else ReviewOutcome.ok 42) 3 = ReviewOutcome.netErr →
            (fetch_jp_reviews_parallel [1, 2, 3, 4, 5]
                (fun aid => if aid = 3 then ReviewOutcome.netErr
                  else ReviewOutcome.ok 42)).lookup 3 = some 0)
        ∧ (∀ n, (fun aid => if aid = 3 then ReviewOutcome.netErr
              else ReviewOutcome.ok 42) 3 = ReviewOutcome.ok n →
            (fetch_jp_reviews_parallel [1, 2, 3, 4, 5]
                (fun aid => if aid = 3 then ReviewOutcome.netErr
                  else ReviewOutcome.ok 42)).lookup 3 = some n)
        ∧ (∀ p ∈ fetch_jp_reviews_parallel [1, 2, 3, 4, 5]
              (fun aid => if aid = 3 then ReviewOutcome.netErr
                else ReviewOutcome.ok 42), p.1 ∈ [1, 2, 3, 4, 5])) :=
  ⟨by decide, review_fetch_partial_results [1, 2, 3, 4, 5]
    (fun aid => if aid = 3 then ReviewOutcome.netErr else ReviewOutcome.ok 42)
    3 (by decide)⟩

/-- The message of the empty-rows branch when the deal list was also empty:
"no matching sales were found". -/
def NO_MATCH_MSG : String := "（条件を満たすセールは見つかりませんでした）"

/-- The message of the empty-rows branch when deals existed but none
survived resolution/eligibility: "appid resolution failed". -/
def RESOLVE_FAIL_MSG : String := "該当ディールはありましたが、Steam側のappid解決に失敗しました。"

/-- The `if not rows` branch of `main` step 6: the lines of the single
fallback tweet, whose message depends on whether the deal list was empty. -/
def build_empty_lines (head2 : String) (deals_empty : Bool) : List String :=
  ["⏰ 本日終了のSteamセールまとめ", head2, ""]
    ++ [if deals_empty then NO_MATCH_MSG else RESOLVE_FAIL_MSG]
    ++ [HASHTAG]

/-- Step 6 of `main` as a whole: one fallback unit when the ranked list is
empty, else one tweet per 100-row chunk. -/
def build_output (head2 : String) (fmtE : Int → String)
    (deals : List DealEntry) (rows : List Row) : List (List String) :=
  if rows.isEmpty then [build_empty_lines head2 deals.isEmpty]
  else (output_units rows).map (fun u => build_tweet_lines head2 fmtE u.1 u.2)

/-- C7: when the ranked list is empty exactly one output unit is produced;
its fourth line is the "no matching sales" message when the deal list was
empty and the distinct "appid resolution failed" message when deals
existed. -/
theorem empty_rows_message_distinguishes (head2 : String) (fmtE : Int → String)
    (deals : List DealEntry) (rows : List Row) (h : rows = []) :
    build_output head2 fmtE deals rows = [build_empty_lines head2 deals.isEmpty]
      ∧ (build_empty_lines head2 true)[3]? = some NO_MATCH_MSG
      ∧ (build_empty_lines head2 false)[3]? = some RESOLVE_FAIL_MSG
      ∧ NO_MATCH_MSG ≠ RESOLVE_FAIL_MSG := by
  subst h
  refine ⟨by rw [build_output]; simp, ?_, ?_, by decide⟩
  · rw [build_empty_lines]
    rfl
  · rw [build_empty_lines]
    rfl

/-- Witness for C7 at a concrete input: empty ranked list, one leftover
deal, so the single unit carries the resolution-failure message. -/
theorem empty_rows_message_distinguishes_witness :
    ([] : List Row) = []
      ∧ (build_output "h" (fun _ => "") [⟨some "g", "game", some 50⟩] []
            = [build_empty_lines "h" ([⟨some "g", "game", some 50⟩] : List DealEntry).isEmpty]
        ∧ (build_empty_lines "h" true)[3]? = some NO_MATCH_MSG
        ∧ (build_empty_lines "h" false)[3]? = some RESOLVE_FAIL_MSG
        ∧ NO_MATCH_MSG ≠ RESOLVE_FAIL_MSG) :=
  ⟨rfl, empty_rows_message_distinguishes "h" (fun _ => "")
    [⟨some "g", "game", some 50⟩] [] rfl⟩

/-- The statuses `_get_with_retry` retries on:
`(429, 500, 502, 503, 504, 520, 521, 522, 523, 524)`. -/
def retryable (s : Nat) : Bool :=
  s == 429 || s == 500 || s == 502 || s == 503 || s == 504
    || s == 520 || s == 521 || s == 522 || s == 523 || s == 524

/-- The observable outcome of `_get_with_retry`: a returned response or a
raised `HTTPError`, each tagged with the attempt index it happened on. -/
inductive RetryRes where
  | success (attempt : Nat)
  | raised (status : Nat) (attempt : Nat)
deriving DecidableEq, Repr

/-- `_get_with_retry` over an abstract status trace (`status i` is the HTTP
status the i-th request would see): 200 returns, 400 raises immediately, a
retryable status sleeps with backoff and moves to the next attempt while
loop iterations remain, any other status raises immediately; after the loop
a final unthrottled attempt is made on which `raise_for_status` raises every
status ≥ 400. -/
def getWithRetryAux (status : Nat → Nat) (i : Nat) : Nat → RetryRes
  | 0 => if status i < 400 then .success i else .raised (status i) i
  | fuel + 1 =>
      if status i == 200 then .success i
      else if status i == 400 then .raised 400 i
      else if retryable (status i) then getWithRetryAux status (i + 1) fuel
      else .raised (status i) i

/-- The default `max_retry=6` of `_get_with_retry`. -/
def MAX_RETRY : Nat := 6

def get_with_retry (status : Nat → Nat) : RetryRes :=
  getWithRetryAux status 0 MAX_RETRY

theorem retryable_ne_200_400 (s : Nat) (h : retryable s = true) :
    s ≠ 200 ∧ s ≠ 400 := by
  simp only [retryable, Bool.or_eq_true, beq_iff_eq] at h
  omega

theorem aux_all_retryable (status : Nat → Nat) :
    ∀ (fuel i : Nat),
      (∀ j, i ≤ j → j < i + fuel → retryable (status j) = true) →
      getWithRetryAux status i fuel = getWithRetryAux status (i + fuel) 0 := by
  intro fuel
  induction fuel with
  | zero => intro i _; rfl
  | succ fuel ih =>
      intro i h
      have hi : retryable (status i) = true := h i (le_refl i) (by omega)
      have hne := retryable_ne_200_400 (status i) hi
      have hstep : getWithRetryAux status i (fuel + 1)
          = getWithRetryAux status (i + 1) fuel := by
        rw [getWithRetryAux]
        rw [if_neg (by simp [hne.1]), if_neg (by simp [hne.2]), if_pos hi]
      rw [hstep, ih (i + 1) (fun j hj1 hj2 => h j (by omega) (by omega))]
      congr 1
      omega

/-- Counterexample to C8 as stated: status 501 is a server error (5xx) yet
`_get_with_retry` raises it immediately on the first attempt, because the
retry list enumerates only `429, 500, 502, 503, 504` and the Cloudflare
520–524 range. -/
theorem server_error_501_raises_immediately :
    get_with_retry (fun _ => 501) = RetryRes.raised 501 0
      ∧ 500 ≤ 501 ∧ 501 < 600 ∧ retryable 501 = false := by
  decide

/-- C8 amended: a client-error status in 400–499 other than 429 raises
immediately on its attempt; a status in the explicit retry list
`(429, 500, 502, 503, 504, 520, 521, 522, 523, 524)` backs off and moves to
the next attempt; any other status (including server errors such as 501
that are outside that list) also raises immediately; and when every looped
attempt sees a retryable status, the result is that of the one final
unthrottled attempt at index `MAX_RETRY`. -/
theorem retry_policy_amended (s1 s2 s3 s4 : Nat → Nat)
    (i1 i2 i3 fuel1 fuel2 fuel3 : Nat)
    (h1a : 400 ≤ s1 i1) (h1b : s1 i1 < 500) (h1c : s1 i1 ≠ 429)
    (h2 : retryable (s2 i2) = true)
    (h3a : s3 i3 ≠ 200) (h3b : s3 i3 ≠ 400) (h3c : retryable (s3 i3) = false)
    (h4 : ∀ j, j < MAX_RETRY → retryable (s4 j) = true) :
    getWithRetryAux s1 i1 (fuel1 + 1) = RetryRes.raised (s1 i1) i1
      ∧ getWithRetryAux s2 i2 (fuel2 + 1) = getWithRetryAux s2 (i2 + 1) fuel2
      ∧ getWithRetryAux s3 i3 (fuel3 + 1) = RetryRes.raised (s3 i3) i3
      ∧ get_with_retry s4 = (if s4 MAX_RETRY < 400 then RetryRes.success MAX_RETRY
          else RetryRes.raised (s4 MAX_RETRY) MAX_RETRY) := by
  refine ⟨?_, ?_, ?_, ?_⟩
  · rw [getWithRetryAux]
    rw [if_neg (by simp; omega)]
    by_cases h400 : s1 i1 = 400
    · rw [if_pos (by simp [h400]), h400]
    · have hr : retryable (s1 i1) = false := by
        simp only [retryable, Bool.or_eq_false_iff, beq_eq_false_iff_ne, ne_eq]
        omega
      rw [if_neg (by simp [h400]), if_neg (by simp [hr])]
  · rw [getWithRetryAux]
    have hne := retryable_ne_200_400 (s2 i2) h2
    rw [if_neg (by simp [hne.1]), if_neg (by simp [hne.2]), if_pos h2]
  · rw [getWithRetryAux]
    rw [if_neg (by simp [h3a]), if_neg (by simp [h3b]), if_neg (by simp [h3c])]
  · rw [get_with_retry, aux_all_retryable s4 MAX_RETRY 0
      (fun j hj1 hj2 => h4 j (by omega))]
    rfl

/-- Witness for the amended C8: a 404 trace raises at its attempt, a 429
trace moves to the next attempt, a 501 trace raises at its attempt, and an
all-503 trace ends with the final attempt raising 503 at index 6. -/
theorem retry_policy_amended_witness :
    (400 ≤ (fun _ : Nat => 404) 0 ∧ (fun _ : Nat => 404) 0 < 500
        ∧ (fun _ : Nat => 404) 0 ≠ 429
        ∧ retryable ((fun _ : Nat => 429) 0) = true
        ∧ (fun _ : Nat => 501) 0 ≠ 200 ∧ (fun _ : Nat => 501) 0 ≠ 400
        ∧ retryable ((fun _ : Nat => 501) 0) = false
        ∧ (∀ j, j < MAX_RETRY → retryable ((fun _ : Nat => 503) j) = true))
      ∧ (getWithRetryAux (fun _ => 404) 0 (5 + 1) = RetryRes.raised ((fun _ : Nat => 404) 0) 0
        ∧ getWithRetryAux (fun _ => 429) 0 (5 + 1) = getWithRetryAux (fun _ => 429) (0 + 1) 5
        ∧ getWithRetryAux (fun _ => 501) 0 (5 + 1) = RetryRes.raised ((fun _ : Nat => 501) 0) 0
        ∧ get_with_retry (fun _ => 503)
            = (if (fun _ : Nat => 503) MAX_RETRY < 400 then RetryRes.success MAX_RETRY
                else RetryRes.raised ((fun _ : Nat => 503) MAX_RETRY) MAX_RETRY)) :=
  ⟨⟨by decide, by decide, by decide, by decide, by decide, by decide, by decide,
      by decide⟩,
    retry_policy_amended (fun _ => 404) (fun _ => 429) (fun _ => 501) (fun _ => 503)
      0 0 0 5 5 5 (by decide) (by decide) (by decide) (by decide) (by decide)
      (by decide) (by decide) (by decide)⟩

/-- A shop entry of the ITAD `service/shops/v1` response: optional title
and optional id. -/
structure Shop where
  title : Option String
  id : Option Nat
deriving DecidableEq, Repr

/-- `get_steam_shop_id`: the first listed shop whose lowercased title
equals "steam" yields its id; with no such entry the hardcoded fallback 61
is returned. -/
def get_steam_shop_id (shops : List Shop) : Option Nat :=
  match shops.find? (fun s => lower (s.title.getD "") == "steam") with
  | some s => s.id
  | none => some 61

/-- C10: when no shop entry has title "steam" (case-insensitive, absent
titles read as ""), the resolution silently returns the hardcoded constant
61 instead of failing. -/
theorem shop_resolution_falls_back_to_61 (shops : List Shop)
    (h : ∀ s ∈ shops, ¬(lower (s.title.getD "") == "steam") = true) :
    get_steam_shop_id shops = some 61 := by
  rw [get_steam_shop_id]
  rw [List.find?_eq_none.mpr h]

/-- Witness for C10 at a concrete input: a shop list with no "steam" title
(one differing title, one absent title). -/
theorem shop_resolution_falls_back_to_61_witness :
    (∀ s ∈ ([⟨some "GOG", some 35⟩, ⟨none, some 4⟩] : List Shop),
        ¬(lower (s.title.getD "") == "steam") = true)
      ∧ get_steam_shop_id [⟨some "GOG", some 35⟩, ⟨none, some 4⟩] = some 61 :=
  ⟨by decide, shop_resolution_falls_back_to_61
    [⟨some "GOG", some 35⟩, ⟨none, some 4⟩] (by decide)⟩

end SnsBatch
